import Mathlib

/-!
# Verification of the Coderic Relay routing and signaling core

Shallow embedding of the destination router (`src/Relay.js`), the log ring
buffer (`Relay._emitLog`), the identification handler (`identificar`), and the
WebRTC signaling session manager (`src/plugins/webrtc.js`).

JavaScript `Map` objects are modelled as insertion-ordered association lists
(`mapGet`/`mapSet`/`mapDelete`) and `Set` objects as insertion-ordered
duplicate-free lists (`setAdd`/`setDelete`).  Optional/possibly-absent string
fields are modelled as `Option String`, where JavaScript falsiness of a string
corresponds to the value being `none` or `some ""`.
-/

/-- Lookup in a JS `Map` modelled as an association list (`Map.get`). -/
def mapGet {α β : Type} [DecidableEq α] (m : List (α × β)) (k : α) : Option β :=
  match m with
  | [] => none
  | (a, b) :: t => if a = k then some b else mapGet t k

/-- JS `Map.set`: replace the value at the (unique) existing entry for the key,
keeping its position, otherwise append the new entry at the end (JS maps
preserve insertion order). -/
def mapSet {α β : Type} [DecidableEq α] (m : List (α × β)) (k : α) (v : β) :
    List (α × β) :=
  match m with
  | [] => [(k, v)]
  | (a, b) :: t => if a = k then (k, v) :: t else (a, b) :: mapSet t k v

/-- JS `Map.delete`: remove the entry with the given key. -/
def mapDelete {α β : Type} [DecidableEq α] (m : List (α × β)) (k : α) :
    List (α × β) :=
  m.filter (fun p => p.1 ≠ k)

/-- JS `Set.add`: append the element if not already present. -/
def setAdd {α : Type} [DecidableEq α] (s : List α) (x : α) : List α :=
  if x ∈ s then s else s ++ [x]

/-- JS `Set.delete`: remove the element. -/
def setDelete {α : Type} [DecidableEq α] (s : List α) (x : α) : List α :=
  s.filter (fun y => y ≠ x)

theorem mapGet_mapSet_self {α β : Type} [DecidableEq α] (m : List (α × β)) (k : α) (v : β) :
    mapGet (mapSet m k v) k = some v := by
  induction m with
  | nil => simp [mapSet, mapGet]
  | cons p t ih =>
      obtain ⟨a, b⟩ := p
      by_cases h : a = k
      · simp [mapSet, mapGet, h]
      · simp [mapSet, mapGet, h, ih]

theorem mapGet_mapSet_ne {α β : Type} [DecidableEq α] (m : List (α × β)) (k k' : α) (v : β)
    (h : k' ≠ k) : mapGet (mapSet m k v) k' = mapGet m k' := by
  induction m with
  | nil => simp [mapSet, mapGet, Ne.symm h]
  | cons p t ih =>
      obtain ⟨a, b⟩ := p
      by_cases ha : a = k
      · subst ha
        simp [mapSet, mapGet, Ne.symm h]
      · by_cases hak : a = k'
        · subst hak
          simp [mapSet, mapGet, ha]
        · simp [mapSet, mapGet, ha, hak, ih]

theorem mapGet_mapDelete_self {α β : Type} [DecidableEq α] (m : List (α × β)) (k : α) :
    mapGet (mapDelete m k) k = none := by
  induction m with
  | nil => rfl
  | cons p t ih =>
      obtain ⟨a, b⟩ := p
      by_cases h : a = k
      · simpa [mapDelete, h] using ih
      · simpa [mapDelete, mapGet, h] using ih

theorem mapGet_mapDelete_ne {α β : Type} [DecidableEq α] (m : List (α × β)) (k k' : α)
    (h : k' ≠ k) : mapGet (mapDelete m k) k' = mapGet m k' := by
  induction m with
  | nil => rfl
  | cons p t ih =>
      obtain ⟨a, b⟩ := p
      by_cases ha : a = k
      · subst ha
        simpa [mapDelete, mapGet, Ne.symm h] using ih
      · by_cases hak : a = k'
        · subst hak
          simp [mapDelete, mapGet, ha]
        · simpa [mapDelete, mapGet, ha, hak] using ih

theorem mapSet_fresh {α β : Type} [DecidableEq α] (m : List (α × β)) (k : α) (v : β)
    (h : mapGet m k = none) : mapSet m k v = m ++ [(k, v)] := by
  induction m with
  | nil => rfl
  | cons p t ih =>
      obtain ⟨a, b⟩ := p
      by_cases ha : a = k
      · simp [mapGet, ha] at h
      · simp only [mapGet, ha, if_neg, if_false] at h
        simp [mapSet, ha, ih h]

/-! ## Destination router (`Relay.js`, `_setupNamespaceHandlers`)

The `relay` and `notificar` events each route the incoming data object by a
`switch (data.destino)` with cases `'ustedes'` (broadcast to everyone except
the sender), `'nosotros'` (emit to the whole namespace), and a default case
(echo to the sender only).  Neither switch has a `'room'` case. -/

/-- Connection id (socket id). -/
abbrev ConnId := String

/-- The data object sent on the `relay` / `notificar` channel.  Fields beyond
`destino` and `tipo` that the handlers destructure are carried as optional
strings; `none` models an absent (`undefined`) field. -/
structure RelayData where
  destino : Option String
  tipo : Option String
  roomId : Option String
  peerId : Option String
  sendTo : Option String
  offer : Option String
  answer : Option String
  candidate : Option String
  deriving DecidableEq, Repr

/-- Local delivery set of the `relay` event's destination switch:
`socket.broadcast.emit` reaches every connected socket except the sender,
`namespace.emit` reaches every connected socket, and the default case
(`// "yo"`) is `socket.emit`, i.e. the sender alone. -/
def relayDeliverySet (conns : List ConnId) (origin : ConnId) (d : RelayData) :
    List ConnId :=
  if d.destino = some "ustedes" then conns.filter (fun c => c ≠ origin)
  else if d.destino = some "nosotros" then conns
  else [origin]

/-- Local delivery set of the `notificar` event's destination switch, which is
textually identical to the `relay` one. -/
def notificarDeliverySet (conns : List ConnId) (origin : ConnId) (d : RelayData) :
    List ConnId :=
  if d.destino = some "ustedes" then conns.filter (fun c => c ≠ origin)
  else if d.destino = some "nosotros" then conns
  else [origin]

/-- C1: for every envelope on the relay channel (and likewise on `notificar`),
the local delivery set depends only on the destination field: `'ustedes'`
delivers to every locally registered connection except the origin,
`'nosotros'` to every locally registered connection including the origin, and
any other destination value — `'yo'`, unknown strings, or an absent field —
delivers only to the origin connection (fallback is self, never a drop). -/
theorem relay_destination_routing (conns : List ConnId) (origin : ConnId)
    (d : RelayData) :
    (d.destino = some "ustedes" →
      relayDeliverySet conns origin d = conns.filter (fun c => c ≠ origin) ∧
      notificarDeliverySet conns origin d = conns.filter (fun c => c ≠ origin)) ∧
    (d.destino = some "nosotros" →
      relayDeliverySet conns origin d = conns ∧
      notificarDeliverySet conns origin d = conns) ∧
    (d.destino ≠ some "ustedes" → d.destino ≠ some "nosotros" →
      relayDeliverySet conns origin d = [origin] ∧
      notificarDeliverySet conns origin d = [origin]) := by
  refine ⟨fun h => ?_, fun h => ?_, fun h1 h2 => ?_⟩ <;>
    constructor <;>
      simp [relayDeliverySet, notificarDeliverySet, *]

/-- Witness for `relay_destination_routing` at concrete inputs. -/
theorem relay_destination_routing_witness :
    ((⟨some "ustedes", none, none, none, none, none, none, none⟩ : RelayData).destino
        = some "ustedes" ∧
      relayDeliverySet ["a", "b", "c"] "a"
        ⟨some "ustedes", none, none, none, none, none, none, none⟩ =
          (["a", "b", "c"].filter (fun c => c ≠ "a"))) ∧
    ((⟨some "room", none, none, none, none, none, none, none⟩ : RelayData).destino
        ≠ some "ustedes" ∧
      relayDeliverySet ["a", "b", "c"] "a"
        ⟨some "room", none, none, none, none, none, none, none⟩ = ["a"]) := by
  refine ⟨⟨rfl, ?_⟩, ⟨by decide, ?_⟩⟩
  · exact ((relay_destination_routing ["a", "b", "c"] "a"
      ⟨some "ustedes", none, none, none, none, none, none, none⟩).1 rfl).1
  · exact (((relay_destination_routing ["a", "b", "c"] "a"
      ⟨some "room", none, none, none, none, none, none, none⟩).2.2
        (by decide) (by decide))).1

/-! ## Log ring buffer (`Relay._emitLog`)

`_emitLog` builds a log record, pushes it onto `this.logBuffer`, and if the
buffer length now exceeds `this.maxLogBuffer` (1000) removes the single oldest
entry with `shift()`. -/

/-- Shape of a log record built by `_emitLog`: `{timestamp, level, category,
message, instance, data}`; the `data` object is kept opaque. -/
structure LogEntry where
  timestamp : Nat
  level : String
  category : String
  message : String
  instanceId : String
  data : String
  deriving DecidableEq, Repr

/-- `this.maxLogBuffer = 1000`. -/
def maxLogBuffer : Nat := 1000

/-- One `_emitLog` step on the buffer: `push(logEntry)` followed by
`if (logBuffer.length > maxLogBuffer) logBuffer.shift()`. -/
def emitLogBuffer (buf : List LogEntry) (e : LogEntry) : List LogEntry :=
  let b := buf ++ [e]
  if maxLogBuffer < b.length then b.tail else b

/-- The buffer produced by a sequence of `_emitLog` calls starting from the
initial empty `this.logBuffer = []`. -/
def emitLogAll (es : List LogEntry) : List LogEntry :=
  es.foldl emitLogBuffer []

theorem emitLogBuffer_of_lt (buf : List LogEntry) (e : LogEntry)
    (h : buf.length < maxLogBuffer) : emitLogBuffer buf e = buf ++ [e] := by
  unfold emitLogBuffer
  rw [if_neg]
  simp only [List.length_append, List.length_cons, List.length_nil]
  omega

theorem emitLogBuffer_of_full (buf : List LogEntry) (e : LogEntry)
    (h : buf.length = maxLogBuffer) : emitLogBuffer buf e = buf.tail ++ [e] := by
  have hne : buf ≠ [] := by
    intro hnil
    rw [hnil] at h
    simp [maxLogBuffer] at h
  unfold emitLogBuffer
  rw [if_pos, List.tail_append_of_ne_nil hne]
  simp only [List.length_append, List.length_cons, List.length_nil, h]
  omega

theorem emitLogAll_eq_drop (es : List LogEntry) :
    emitLogAll es = es.drop (es.length - maxLogBuffer) := by
  induction es using List.reverseRecOn with
  | nil => rfl
  | append_singleton es e ih =>
      have hstep : emitLogAll (es ++ [e]) = emitLogBuffer (emitLogAll es) e := by
        unfold emitLogAll
        rw [List.foldl_append]
        rfl
      rw [hstep, ih]
      by_cases h : es.length < maxLogBuffer
      · have h0 : es.length - maxLogBuffer = 0 := by omega
        have h1 : (es ++ [e]).length - maxLogBuffer = 0 := by
          simp only [List.length_append, List.length_cons, List.length_nil]
          omega
        rw [h0, h1, List.drop_zero, List.drop_zero]
        exact emitLogBuffer_of_lt es e h
      · push_neg at h
        have hM : 0 < maxLogBuffer := by norm_num [maxLogBuffer]
        have hlen : (es.drop (es.length - maxLogBuffer)).length = maxLogBuffer := by
          rw [List.length_drop]
          omega
        rw [emitLogBuffer_of_full _ _ hlen, List.tail_drop]
        have h2 : (es ++ [e]).length - maxLogBuffer
            = es.length - maxLogBuffer + 1 := by
          simp only [List.length_append, List.length_cons, List.length_nil]
          omega
        rw [h2, List.drop_append_of_le_length (by omega)]

theorem emitLogAll_length_le (es : List LogEntry) :
    (emitLogAll es).length ≤ maxLogBuffer := by
  rw [emitLogAll_eq_drop, List.length_drop]
  omega

/-- C9: the log buffer is a bounded ring buffer of fixed capacity 1000: after
any sequence of emissions the buffer holds exactly the most recent (at most
1000) records in emission order — i.e. it is the length-1000 suffix of the
emission sequence — its length never exceeds 1000, and when an emission would
exceed the capacity the single oldest entry is evicted from the front. -/
theorem log_buffer_ring (es : List LogEntry) :
    (emitLogAll es).length ≤ maxLogBuffer ∧
    emitLogAll es = es.drop (es.length - maxLogBuffer) ∧
    (∀ buf e, buf.length = maxLogBuffer → emitLogBuffer buf e = buf.tail ++ [e]) ∧
    (∀ buf e, buf.length < maxLogBuffer → emitLogBuffer buf e = buf ++ [e]) :=
  ⟨emitLogAll_length_le es, emitLogAll_eq_drop es,
    emitLogBuffer_of_full, emitLogBuffer_of_lt⟩

/-- Witness for `log_buffer_ring`: a concrete full buffer of 1000 entries
evicts exactly its oldest entry on the next emission. -/
theorem log_buffer_ring_witness :
    (List.replicate 1000 (⟨0, "info", "system", "m", "i", ""⟩ : LogEntry)).length
        = maxLogBuffer ∧
    emitLogBuffer (List.replicate 1000 ⟨0, "info", "system", "m", "i", ""⟩)
        ⟨1, "warn", "system", "n", "i", ""⟩
      = (List.replicate 1000 (⟨0, "info", "system", "m", "i", ""⟩ : LogEntry)).tail
          ++ [⟨1, "warn", "system", "n", "i", ""⟩] := by
  have h : (List.replicate 1000 (⟨0, "info", "system", "m", "i", ""⟩ : LogEntry)).length
      = maxLogBuffer := by
    rw [List.length_replicate]
    rfl
  exact ⟨h, ((log_buffer_ring []).2.2.1 _ _ h)⟩

/-! ## Identification handler (`Relay.js`, `socket.on('identificar')`)

The handler body starts with `socket.data.usuario = usuario;` — an
unconditional assignment — and then acks with `fn(true)` when a callback was
supplied. -/

/-- The per-socket mutable data relevant to identification
(`socket.data.usuario`). -/
structure SocketData where
  usuario : Option String
  deriving DecidableEq, Repr

/-- The `identificar` handler: stores the supplied user string into
`socket.data.usuario` (unconditionally) and returns the ack value `true`
passed to the callback. -/
def identificar (sd : SocketData) (usuario : String) : SocketData × Bool :=
  ({ usuario := some usuario }, true)

/-- C8 counterexample: the identity is not set at most once — a second
`identificar` call on the same connection overwrites the stored identity, so
an identified connection does not keep its first identity. -/
theorem identity_set_once_counterexample :
    ((identificar (identificar ⟨none⟩ "u1").1 "u2").1.usuario = some "u2") ∧
    ((identificar (identificar ⟨none⟩ "u1").1 "u2").1.usuario ≠ some "u1") := by
  constructor
  · rfl
  · decide

/-- C8 amended: the `identificar` handler applies last-write-wins — every
identification call stores the supplied identity (and acks `true`), so a later
call replaces the earlier identity rather than leaving it unchanged. -/
theorem identity_last_write_wins (sd : SocketData) (u : String) :
    (identificar sd u).1.usuario = some u ∧ (identificar sd u).2 = true :=
  ⟨rfl, rfl⟩

/-! ## WebRTC signaling session manager (`src/plugins/webrtc.js`)

State of the plugin: `this.rooms : Map roomId -> Set socketId`,
`this.peers : Map socketId -> { roomId, peerId }`,
`this.peerIdToSocketId : Map peerId -> socketId` (inverse map), plus the
socket.io adapter's room membership (mutated by `socket.join` /
`socket.leave`, and consulted by `socket.to(roomId)` which targets every
member of the room except the sender).

Handlers return the new state together with the list of emissions (each with
its concrete local target set) and the list of `console.warn` messages. -/

/-- Peer id string. -/
abbrev PeerId := String

/-- Room id string. -/
abbrev RoomId := String

/-- `this.peers` entry: `{ roomId, peerId }`. -/
structure PeerInfo where
  roomId : RoomId
  peerId : PeerId
  deriving DecidableEq, Repr

/-- Payload of a `relay` emission produced by the plugin. -/
inductive WebRTCPayload where
  | joined (roomId : RoomId) (peers : List PeerId)
  | peerJoined (peerId : PeerId) (socketId : ConnId)
  | peerLeft (peerId : PeerId) (socketId : ConnId)
  | sigOffer (sender : ConnId) (toPeer : PeerId) (offer : String)
  | sigAnswer (sender : ConnId) (toPeer : PeerId) (answer : String)
  | sigCandidate (sender : ConnId) (toPeer : PeerId) (candidate : String)
  deriving DecidableEq, Repr

/-- One `emit('relay', ...)` performed by the plugin, with the local socket
ids it targets resolved against the state at emission time. -/
structure Emission where
  targets : List ConnId
  tipo : String
  payload : WebRTCPayload
  deriving DecidableEq, Repr

/-- Full plugin state (its three maps and the socket.io room membership). -/
structure WebRTCState where
  rooms : List (RoomId × List ConnId)
  peers : List (ConnId × PeerInfo)
  peerIdToSocketId : List (PeerId × ConnId)
  sioRooms : List (RoomId × List ConnId)
  deriving DecidableEq, Repr

/-- Initial plugin state (all maps empty). -/
def WebRTCState.empty : WebRTCState := ⟨[], [], [], []⟩

/-- JS falsiness of an optional string field (`undefined`, `null` or `""`). -/
def strFalsy : Option String → Bool
  | none => true
  | some s => s = ""

/-- `x || d` for an optional string `x`: the default wins when `x` is falsy. -/
def orDefault (x : Option String) (d : String) : String :=
  match x with
  | none => d
  | some s => if s = "" then d else s

/-- `socket.join(roomId)` on the socket.io adapter. -/
def sioJoin (m : List (RoomId × List ConnId)) (rid : RoomId) (c : ConnId) :
    List (RoomId × List ConnId) :=
  mapSet m rid (setAdd ((mapGet m rid).getD []) c)

/-- `socket.leave(roomId)` on the socket.io adapter. -/
def sioLeave (m : List (RoomId × List ConnId)) (rid : RoomId) (c : ConnId) :
    List (RoomId × List ConnId) :=
  mapSet m rid (setDelete ((mapGet m rid).getD []) c)

/-- The target set of `socket.to(roomId).emit(...)`: every member of the
socket.io room except the sending socket. -/
def sioToRoom (m : List (RoomId × List ConnId)) (rid : RoomId) (sender : ConnId) :
    List ConnId :=
  ((mapGet m rid).getD []).filter (fun c => c ≠ sender)

/-- `peerInfo?.peerId || socketId`: the peer id recorded for a room member,
falling back to the raw socket id when no peer session (or an empty peer id)
is recorded. -/
def resolveMemberPeerId (peers : List (ConnId × PeerInfo)) (sid : ConnId) : String :=
  match mapGet peers sid with
  | some pi => if pi.peerId = "" then sid else pi.peerId
  | none => sid

/-- `handleJoinRoom(socket, data)`: guard `if (!roomId) return`; default the
peer id to the socket id; create the room if absent; compute the existing
peers list before adding the joiner; add the joiner to the room, to `peers`
and to the inverse map; `socket.join(roomId)`; emit `webrtc:joined` to the
joiner and `webrtc:peer-joined` to the rest of the room. -/
def handleJoinRoom (st : WebRTCState) (c : ConnId) (roomId peerId : Option String) :
    WebRTCState × List Emission × List String :=
  if strFalsy roomId then (st, [], []) else
  let rid := roomId.getD ""
  let actualPeerId := orDefault peerId c
  let rooms1 := if (mapGet st.rooms rid).isSome then st.rooms else mapSet st.rooms rid []
  let room := (mapGet rooms1 rid).getD []
  let existingPeers := room.map (resolveMemberPeerId st.peers)
  let room2 := setAdd room c
  let rooms2 := mapSet rooms1 rid room2
  let peers2 := mapSet st.peers c ⟨rid, actualPeerId⟩
  let inv2 := mapSet st.peerIdToSocketId actualPeerId c
  let sio2 := sioJoin st.sioRooms rid c
  let st2 : WebRTCState := ⟨rooms2, peers2, inv2, sio2⟩
  let joinedEmission : Emission := ⟨[c], "webrtc:joined", .joined rid existingPeers⟩
  let peerJoinedEmission : Emission :=
    ⟨sioToRoom sio2 rid c, "webrtc:peer-joined", .peerJoined actualPeerId c⟩
  (st2, [joinedEmission, peerJoinedEmission], [])

/-- `handleLeaveRoom(socket)` (also invoked by the `disconnect` hook): no-op
when the socket holds no peer session; otherwise remove the socket from its
room (deleting the room when it becomes empty), delete both map directions,
emit `webrtc:peer-left` to the rest of the room, and `socket.leave(roomId)`. -/
def handleLeaveRoom (st : WebRTCState) (c : ConnId) :
    WebRTCState × List Emission × List String :=
  match mapGet st.peers c with
  | none => (st, [], [])
  | some pi =>
    let rooms2 :=
      match mapGet st.rooms pi.roomId with
      | none => st.rooms
      | some room =>
          let room2 := setDelete room c
          if room2 = [] then mapDelete st.rooms pi.roomId
          else mapSet st.rooms pi.roomId room2
    let peers2 := mapDelete st.peers c
    let inv2 := mapDelete st.peerIdToSocketId pi.peerId
    let peerLeftEmission : Emission :=
      ⟨sioToRoom st.sioRooms pi.roomId c, "webrtc:peer-left",
        .peerLeft pi.peerId c⟩
    let sio2 := sioLeave st.sioRooms pi.roomId c
    (⟨rooms2, peers2, inv2, sio2⟩, [peerLeftEmission], [])

/-- The warning printed by the three point-to-point handlers when the `to`
peer id is not in the inverse map. -/
def unknownPeerWarning (toPeer : String) : String :=
  "[WebRTCPlugin] No se encontró socketId para peerId: " ++ toPeer

/-- `handleOffer(socket, data)`: guard `if (!to || !offer) return`; look the
recipient up in the inverse map; on a miss warn and drop; on a hit emit
`webrtc:offer` to that one socket via `namespace.to(targetSocketId)`. -/
def handleOffer (st : WebRTCState) (c : ConnId) (toPeer offer : Option String) :
    List Emission × List String :=
  if strFalsy toPeer || strFalsy offer then ([], []) else
  let toV := toPeer.getD ""
  match mapGet st.peerIdToSocketId toV with
  | none => ([], [unknownPeerWarning toV])
  | some target =>
      ([⟨[target], "webrtc:offer", .sigOffer c toV (offer.getD "")⟩], [])

/-- `handleAnswer(socket, data)`: same shape as `handleOffer`. -/
def handleAnswer (st : WebRTCState) (c : ConnId) (toPeer answer : Option String) :
    List Emission × List String :=
  if strFalsy toPeer || strFalsy answer then ([], []) else
  let toV := toPeer.getD ""
  match mapGet st.peerIdToSocketId toV with
  | none => ([], [unknownPeerWarning toV])
  | some target =>
      ([⟨[target], "webrtc:answer", .sigAnswer c toV (answer.getD "")⟩], [])

/-- `handleIceCandidate(socket, data)`: same shape as `handleOffer`. -/
def handleIceCandidate (st : WebRTCState) (c : ConnId) (toPeer candidate : Option String) :
    List Emission × List String :=
  if strFalsy toPeer || strFalsy candidate then ([], []) else
  let toV := toPeer.getD ""
  match mapGet st.peerIdToSocketId toV with
  | none => ([], [unknownPeerWarning toV])
  | some target =>
      ([⟨[target], "webrtc:ice-candidate", .sigCandidate c toV (candidate.getD "")⟩], [])

/-- `s.startsWith(p)` spelled on the character lists of the two strings, so
that it computes inside the kernel. -/
def strStarts (s p : String) : Bool :=
  p.toList.isPrefixOf s.toList

/-- The plugin's `socket.on('relay')` listener: ignore data without a
`webrtc:`-prefixed `tipo`, else dispatch on the five handled tipos. -/
def pluginOnRelay (st : WebRTCState) (c : ConnId) (d : RelayData) :
    WebRTCState × List Emission × List String :=
  match d.tipo with
  | none => (st, [], [])
  | some t =>
    if t = "" then (st, [], []) else
    if ¬ strStarts t "webrtc:" then (st, [], []) else
    match t with
    | "webrtc:join" => handleJoinRoom st c d.roomId d.peerId
    | "webrtc:offer" =>
        let r := handleOffer st c d.sendTo d.offer
        (st, r.1, r.2)
    | "webrtc:answer" =>
        let r := handleAnswer st c d.sendTo d.answer
        (st, r.1, r.2)
    | "webrtc:ice-candidate" =>
        let r := handleIceCandidate st c d.sendTo d.candidate
        (st, r.1, r.2)
    | "webrtc:leave" => handleLeaveRoom st c
    | _ => (st, [], [])

/-- The plugin's `socket.on('disconnect')` hook, which just calls
`handleLeaveRoom(socket)`. -/
def pluginOnDisconnect (st : WebRTCState) (c : ConnId) :
    WebRTCState × List Emission × List String :=
  handleLeaveRoom st c

/-! ## Theorems about the signaling manager -/

/-- Number of `webrtc:peer-left` emissions in an emission list. -/
def countPeerLeft (ems : List Emission) : Nat :=
  (ems.filter (fun e => e.tipo = "webrtc:peer-left")).length

/-- The state reached from the empty plugin state by a sequence of
`webrtc:join` requests for one fixed room, each pair giving the joining
connection id and its requested peer id. -/
def joinSeq (r : RoomId) (l : List (ConnId × PeerId)) : WebRTCState :=
  l.foldl (fun st cp => (handleJoinRoom st cp.1 (some r) (some cp.2)).1)
    WebRTCState.empty

/-- C4: for every offer, answer, or ice-candidate with a non-empty `to` peer
id and payload: if `to` does not resolve in the inverse peerId→connectionId
map the message is dropped with exactly one logged warning and no delivery
(and no exception — the handler is total); if it resolves, it is delivered
point-to-point to the resolved connection only (the target list is exactly
the one resolved socket), never as a room broadcast. -/
theorem signaling_point_to_point (st : WebRTCState) (c : ConnId) (t pl : String)
    (ht : t ≠ "") (hpl : pl ≠ "") :
    (mapGet st.peerIdToSocketId t = none →
      handleOffer st c (some t) (some pl) = ([], [unknownPeerWarning t]) ∧
      handleAnswer st c (some t) (some pl) = ([], [unknownPeerWarning t]) ∧
      handleIceCandidate st c (some t) (some pl) = ([], [unknownPeerWarning t])) ∧
    (∀ target, mapGet st.peerIdToSocketId t = some target →
      handleOffer st c (some t) (some pl)
        = ([⟨[target], "webrtc:offer", .sigOffer c t pl⟩], []) ∧
      handleAnswer st c (some t) (some pl)
        = ([⟨[target], "webrtc:answer", .sigAnswer c t pl⟩], []) ∧
      handleIceCandidate st c (some t) (some pl)
        = ([⟨[target], "webrtc:ice-candidate", .sigCandidate c t pl⟩], [])) := by
  constructor
  · intro h
    refine ⟨?_, ?_, ?_⟩ <;>
      simp [handleOffer, handleAnswer, handleIceCandidate, strFalsy, ht, hpl, h]
  · intro target h
    refine ⟨?_, ?_, ?_⟩ <;>
      simp [handleOffer, handleAnswer, handleIceCandidate, strFalsy, ht, hpl, h]

/-- Witness for `signaling_point_to_point`: peer `"pA"` offers to unmapped
peer `"pB"` — silent drop with one warning; and to mapped peer `"p2"` —
delivered to exactly the resolved socket. -/
theorem signaling_point_to_point_witness :
    ("pB" ≠ "" ∧ "sdp" ≠ "" ∧
      mapGet (joinSeq "r" [("c1", "p1"), ("c2", "p2")]).peerIdToSocketId "pB" = none ∧
      handleOffer (joinSeq "r" [("c1", "p1"), ("c2", "p2")]) "c1" (some "pB") (some "sdp")
        = ([], [unknownPeerWarning "pB"])) ∧
    (mapGet (joinSeq "r" [("c1", "p1"), ("c2", "p2")]).peerIdToSocketId "p2" = some "c2" ∧
      handleOffer (joinSeq "r" [("c1", "p1"), ("c2", "p2")]) "c1" (some "p2") (some "sdp")
        = ([⟨["c2"], "webrtc:offer", .sigOffer "c1" "p2" "sdp"⟩], [])) := by
  refine ⟨⟨by decide, by decide, by decide, ?_⟩, ⟨by decide, ?_⟩⟩
  · exact ((signaling_point_to_point (joinSeq "r" [("c1", "p1"), ("c2", "p2")])
      "c1" "pB" "sdp" (by decide) (by decide)).1 (by decide)).1
  · exact ((signaling_point_to_point (joinSeq "r" [("c1", "p1"), ("c2", "p2")])
      "c1" "p2" "sdp" (by decide) (by decide)).2 "c2" (by decide)).1

/-- C10: a leave request (or disconnect) for a connection holding no peer
session is a complete no-op on the signaling state — the rooms map, both
session maps, and the socket.io membership are unchanged, and no emission
(in particular no `webrtc:peer-left`) and no warning is produced. -/
theorem leave_without_session_noop (st : WebRTCState) (c : ConnId)
    (h : mapGet st.peers c = none) :
    handleLeaveRoom st c = (st, [], []) ∧
    pluginOnDisconnect st c = (st, [], []) := by
  have h1 : handleLeaveRoom st c = (st, [], []) := by
    unfold handleLeaveRoom
    rw [h]
  exact ⟨h1, h1⟩

/-- Witness for `leave_without_session_noop` at a concrete sessionless
connection. -/
theorem leave_without_session_noop_witness :
    mapGet (joinSeq "r" [("c1", "p1")]).peers "zz" = none ∧
    handleLeaveRoom (joinSeq "r" [("c1", "p1")]) "zz"
      = (joinSeq "r" [("c1", "p1")], [], []) := by
  refine ⟨by decide, ?_⟩
  exact (leave_without_session_noop (joinSeq "r" [("c1", "p1")]) "zz" (by decide)).1

/-- C7 counterexample: when `"c2"` joins with peer id `"p1"` already mapped to
the different connection `"c1"`, the inverse map is overwritten (last write
wins) but no warning at all is logged — `handleJoinRoom` emits an empty
warning list, refuting the claimed logged warning. -/
theorem peerid_collision_counterexample :
    mapGet (joinSeq "r" [("c1", "p1")]).peerIdToSocketId "p1" = some "c1" ∧
    mapGet (handleJoinRoom (joinSeq "r" [("c1", "p1")]) "c2"
        (some "r") (some "p1")).1.peerIdToSocketId "p1" = some "c2" ∧
    (handleJoinRoom (joinSeq "r" [("c1", "p1")]) "c2"
        (some "r") (some "p1")).2.2 = [] := by
  decide

/-- C7 amended: on a join whose peer id is already mapped to a different
connection, the manager applies last-write-wins on the inverse
peerId→connectionId map — the colliding peer id now resolves to the newer
connection — but does so silently: no warning is logged. -/
theorem peerid_collision_lww (st : WebRTCState) (c : ConnId) (rid : RoomId)
    (p : PeerId) (hr : rid ≠ "") (hp : p ≠ "") :
    mapGet (handleJoinRoom st c (some rid) (some p)).1.peerIdToSocketId p = some c ∧
    (handleJoinRoom st c (some rid) (some p)).2.2 = [] := by
  unfold handleJoinRoom
  simp only [strFalsy, hr, decide_eq_true_eq, if_false, Option.getD_some]
  constructor
  · have : orDefault (some p) c = p := by simp [orDefault, hp]
    simp only [this]
    exact mapGet_mapSet_self _ _ _
  · trivial

/-- Witness for `peerid_collision_lww` at the concrete collision of the
counterexample. -/
theorem peerid_collision_lww_witness :
    ("r" ≠ "" ∧ "p1" ≠ "") ∧
    mapGet (handleJoinRoom (joinSeq "r" [("c1", "p1")]) "c2"
      (some "r") (some "p1")).1.peerIdToSocketId "p1" = some "c2" := by
  refine ⟨⟨by decide, by decide⟩, ?_⟩
  exact (peerid_collision_lww (joinSeq "r" [("c1", "p1")]) "c2" "r" "p1"
    (by decide) (by decide)).1

/-- C2 counterexample: X and Y have joined room `"r1"` (via the only join
mechanism in the code, `webrtc:join`), X sends `{destino:'room',
roomName:'r1', tipo:'hello'}`; the destination switch has no `'room'` case,
so the envelope is echoed to X alone, and the WebRTC plugin ignores the
non-`webrtc:` tipo — Y receives nothing. -/
theorem room_destination_counterexample :
    relayDeliverySet ["X", "Y", "Z"] "X"
        ⟨some "room", some "hello", some "r1", none, none, none, none, none⟩
      = ["X"] ∧
    (pluginOnRelay (joinSeq "r1" [("X", "pX"), ("Y", "pY")]) "X"
        ⟨some "room", some "hello", some "r1", none, none, none, none, none⟩).2.1
      = [] ∧
    "Y" ∉ relayDeliverySet ["X", "Y", "Z"] "X"
        ⟨some "room", some "hello", some "r1", none, none, none, none, none⟩ := by
  decide

/-- C2 amended: an envelope with destination `'room'` hits the default case of
the destination switch and is delivered only to the origin connection (for
`relay` and `notificar` alike); room-scoped fan-out exists only inside the
WebRTC plugin for `webrtc:*` tipos — concretely, when X sends `webrtc:join`
for room `"r1"` whose local member is Y (Z being in a different room), the
resulting `webrtc:peer-joined` is delivered to exactly Y, and to no
connection outside the room. -/
theorem room_destination_amended (conns : List ConnId) (origin : ConnId)
    (d : RelayData) (h : d.destino = some "room") :
    relayDeliverySet conns origin d = [origin] ∧
    notificarDeliverySet conns origin d = [origin] ∧
    (pluginOnRelay
        (handleJoinRoom (handleJoinRoom WebRTCState.empty "Y" (some "r1")
          (some "pY")).1 "Z" (some "r2") (some "pZ")).1 "X"
        ⟨some "room", some "webrtc:join", some "r1", some "pX", none, none,
          none, none⟩).2.1
      = [⟨["X"], "webrtc:joined", .joined "r1" ["pY"]⟩,
         ⟨["Y"], "webrtc:peer-joined", .peerJoined "pX" "X"⟩] := by
  refine ⟨?_, ?_, by decide⟩ <;> simp [relayDeliverySet, notificarDeliverySet, h]

/-- Witness for `room_destination_amended` at a concrete envelope. -/
theorem room_destination_amended_witness :
    (⟨some "room", some "hello", some "r1", none, none, none, none,
        none⟩ : RelayData).destino = some "room" ∧
    relayDeliverySet ["X", "Y"] "X"
        ⟨some "room", some "hello", some "r1", none, none, none, none, none⟩
      = ["X"] := by
  refine ⟨rfl, ?_⟩
  exact (room_destination_amended ["X", "Y"] "X"
    ⟨some "room", some "hello", some "r1", none, none, none, none, none⟩ rfl).1

/-- Shared helper: `handleLeaveRoom` returns immediately when the socket has
no peer session (`if (!peerInfo) return`). -/
theorem handleLeaveRoom_of_none (st : WebRTCState) (c : ConnId)
    (h : mapGet st.peers c = none) : handleLeaveRoom st c = (st, [], []) := by
  unfold handleLeaveRoom
  rw [h]

/-- Adding then excluding the same element leaves a JS set's other elements:
`socket.to(room)` after `socket.join(room)` targets the pre-join members. -/
theorem setAdd_filter_ne {α : Type} [DecidableEq α] (s : List α) (x : α) :
    (setAdd s x).filter (fun y => y ≠ x) = s.filter (fun y => y ≠ x) := by
  unfold setAdd
  by_cases h : x ∈ s
  · rw [if_pos h]
  · rw [if_neg h, List.filter_append]
    simp

/-- C5 counterexample: a connection that already joined room `"r"` with peer
id `"p1"` sends a second join (peer id `"p2"`); the reply to the joiner lists
`"p1"` — the joiner's own previously registered peer id — so the reply is not
restricted to members other than the joiner. -/
theorem join_reply_counterexample :
    mapGet (joinSeq "r" [("c1", "p1")]).peers "c1"
        = some ⟨"r", "p1"⟩ ∧
    (handleJoinRoom (joinSeq "r" [("c1", "p1")]) "c1" (some "r") (some "p2")).2.1
      = [⟨["c1"], "webrtc:joined", .joined "r" ["p1"]⟩,
         ⟨[], "webrtc:peer-joined", .peerJoined "p2" "c1"⟩] := by
  decide

/-- C5 amended: a join with a non-empty room name registers a peer session
whose peer id defaults to the connection id when omitted; the reply to the
joiner lists, for each member of the room **as it was before this join**
(hence excluding the joiner on its first join to the room, but including the
joiner's previous peer id on a re-join), the member's peer-session peer id
with a fallback to the raw connection id for members without a session; and
the `peer-joined` envelope carrying the new peer id is sent exactly to the
room's pre-join members other than the joiner — never to the joiner itself. -/
theorem join_reply_amended (st : WebRTCState) (c : ConnId) (rid : RoomId)
    (peerId : Option String) (hr : rid ≠ "") :
    (handleJoinRoom st c (some rid) peerId).2.1
      = [⟨[c], "webrtc:joined",
            .joined rid
              (((mapGet st.rooms rid).getD []).map (resolveMemberPeerId st.peers))⟩,
         ⟨((mapGet st.sioRooms rid).getD []).filter (fun y => y ≠ c),
            "webrtc:peer-joined", .peerJoined (orDefault peerId c) c⟩] ∧
    mapGet (handleJoinRoom st c (some rid) peerId).1.peers c
      = some ⟨rid, orDefault peerId c⟩ ∧
    (peerId = none → orDefault peerId c = c) ∧
    c ∉ ((mapGet st.sioRooms rid).getD []).filter (fun y => y ≠ c) := by
  have hfal : strFalsy (some rid) = false := by simp [strFalsy, hr]
  refine ⟨?_, ?_, ?_, ?_⟩
  · unfold handleJoinRoom
    rw [hfal]
    simp only [Bool.false_eq_true, if_false, Option.getD_some]
    have hroom : (mapGet
        (if (mapGet st.rooms rid).isSome then st.rooms else mapSet st.rooms rid [])
        rid).getD [] = (mapGet st.rooms rid).getD [] := by
      by_cases hs : (mapGet st.rooms rid).isSome
      · rw [if_pos hs]
      · rw [if_neg hs, mapGet_mapSet_self]
        simp only [Option.not_isSome_iff_eq_none] at hs
        rw [hs]
        rfl
    rw [hroom]
    have hsio : sioToRoom (sioJoin st.sioRooms rid c) rid c
        = ((mapGet st.sioRooms rid).getD []).filter (fun y => y ≠ c) := by
      unfold sioToRoom sioJoin
      rw [mapGet_mapSet_self]
      simp only [Option.getD_some]
      exact setAdd_filter_ne _ _
    rw [hsio]
  · unfold handleJoinRoom
    rw [hfal]
    simp only [Bool.false_eq_true, if_false, Option.getD_some]
    exact mapGet_mapSet_self _ _ _
  · intro h
    rw [h]
    rfl
  · intro hmem
    have := List.of_mem_filter hmem
    simp at this

/-- Witness for `join_reply_amended`: a fresh joiner into a room whose sole
member is `"c1"` gets the reply `["p1"]` and `peer-joined` goes to `"c1"`
alone. -/
theorem join_reply_amended_witness :
    ("r" ≠ "" ∧
      (handleJoinRoom (joinSeq "r" [("c1", "p1")]) "c2" (some "r") (some "p2")).2.1
        = [⟨["c2"], "webrtc:joined", .joined "r" ["p1"]⟩,
           ⟨["c1"], "webrtc:peer-joined", .peerJoined "p2" "c2"⟩]) := by
  constructor
  · decide
  · have h := (join_reply_amended (joinSeq "r" [("c1", "p1")]) "c2" "r" (some "p2")
      (by decide)).1
    rw [h]
    decide

/-- C6: disconnecting (or explicitly leaving) a connection that holds a peer
session removes the session from both directions of the mapping, removes the
connection from its room (deleting the room when it becomes empty), and emits
exactly one `webrtc:peer-left` to the room members other than the leaver —
and exactly one in total even when an explicit leave precedes the disconnect,
since the disconnect hook then finds no session; no peer session for the
connection survives. -/
theorem disconnect_peer_left_exactly_once (st : WebRTCState) (c : ConnId)
    (rid : RoomId) (pid : PeerId) (h : mapGet st.peers c = some ⟨rid, pid⟩) :
    mapGet (handleLeaveRoom st c).1.peers c = none ∧
    mapGet (handleLeaveRoom st c).1.peerIdToSocketId pid = none ∧
    c ∉ (mapGet (handleLeaveRoom st c).1.rooms rid).getD [] ∧
    (setDelete ((mapGet st.rooms rid).getD []) c = [] →
      mapGet (handleLeaveRoom st c).1.rooms rid = none) ∧
    (handleLeaveRoom st c).2.1
      = [⟨sioToRoom st.sioRooms rid c, "webrtc:peer-left", .peerLeft pid c⟩] ∧
    c ∉ sioToRoom st.sioRooms rid c ∧
    countPeerLeft (handleLeaveRoom st c).2.1 = 1 ∧
    countPeerLeft ((handleLeaveRoom st c).2.1
      ++ (pluginOnDisconnect (handleLeaveRoom st c).1 c).2.1) = 1 := by
  have hpeers : mapGet (handleLeaveRoom st c).1.peers c = none := by
    unfold handleLeaveRoom
    rw [h]
    exact mapGet_mapDelete_self _ _
  have hrooms : c ∉ (mapGet (handleLeaveRoom st c).1.rooms rid).getD [] ∧
      (setDelete ((mapGet st.rooms rid).getD []) c = [] →
        mapGet (handleLeaveRoom st c).1.rooms rid = none) := by
    unfold handleLeaveRoom
    rw [h]
    simp only
    rcases hst : mapGet st.rooms rid with _ | room
    · dsimp only
      constructor
      · rw [hst]
        simp
      · intro _
        exact hst
    · dsimp only
      by_cases hempty : setDelete room c = []
      · rw [if_pos hempty]
        constructor
        · rw [mapGet_mapDelete_self]
          simp
        · intro _
          exact mapGet_mapDelete_self _ _
      · rw [if_neg hempty]
        constructor
        · rw [mapGet_mapSet_self]
          simp only [Option.getD_some]
          intro hmem
          have := List.of_mem_filter hmem
          simp at this
        · intro habs
          simp only [Option.getD_some] at habs
          exact absurd habs hempty
  have hem : (handleLeaveRoom st c).2.1
      = [⟨sioToRoom st.sioRooms rid c, "webrtc:peer-left", .peerLeft pid c⟩] := by
    unfold handleLeaveRoom
    rw [h]
  refine ⟨hpeers, ?_, hrooms.1, hrooms.2, hem, ?_, ?_, ?_⟩
  · unfold handleLeaveRoom
    rw [h]
    exact mapGet_mapDelete_self _ _
  · intro hmem
    have := List.of_mem_filter hmem
    simp at this
  · rw [hem]
    rfl
  · have hnoop : (pluginOnDisconnect (handleLeaveRoom st c).1 c).2.1 = [] := by
      unfold pluginOnDisconnect
      rw [handleLeaveRoom_of_none _ _ hpeers]
    rw [hem, hnoop]
    rfl

/-- Witness for `disconnect_peer_left_exactly_once`: `"c1"` holds a session in
room `"r"` alongside `"c2"`; disconnecting it emits one `peer-left` to
`"c2"`, and a leave followed by the disconnect hook still yields one. -/
theorem disconnect_peer_left_exactly_once_witness :
    mapGet (joinSeq "r" [("c1", "p1"), ("c2", "p2")]).peers "c1"
        = some ⟨"r", "p1"⟩ ∧
    (handleLeaveRoom (joinSeq "r" [("c1", "p1"), ("c2", "p2")]) "c1").2.1
      = [⟨["c2"], "webrtc:peer-left", .peerLeft "p1" "c1"⟩] ∧
    countPeerLeft ((handleLeaveRoom (joinSeq "r" [("c1", "p1"), ("c2", "p2")]) "c1").2.1
      ++ (pluginOnDisconnect
            (handleLeaveRoom (joinSeq "r" [("c1", "p1"), ("c2", "p2")]) "c1").1
            "c1").2.1) = 1 := by
  have h := disconnect_peer_left_exactly_once
    (joinSeq "r" [("c1", "p1"), ("c2", "p2")]) "c1" "r" "p1" (by decide)
  refine ⟨by decide, ?_, h.2.2.2.2.2.2.2⟩
  rw [h.2.2.2.2.1]
  decide

/-- A key absent from an association list's key set looks up to `none`. -/
theorem mapGet_eq_none_of_not_mem_keys {α β : Type} [DecidableEq α]
    (m : List (α × β)) (k : α) (h : k ∉ m.map Prod.fst) : mapGet m k = none := by
  induction m with
  | nil => rfl
  | cons p t ih =>
      obtain ⟨a, b⟩ := p
      simp only [List.map_cons, List.mem_cons, not_or] at h
      have hak : a ≠ k := fun hh => h.1 hh.symm
      simp only [mapGet, hak, if_neg, if_false]
      exact ih h.2

/-- `handleJoinRoom` with a proper room name and a proper requested peer id
updates the two session maps by `Map.set`. -/
theorem handleJoinRoom_maps (st : WebRTCState) (c : ConnId) (r : RoomId)
    (p : PeerId) (hr : r ≠ "") (hp : p ≠ "") :
    (handleJoinRoom st c (some r) (some p)).1.peers = mapSet st.peers c ⟨r, p⟩ ∧
    (handleJoinRoom st c (some r) (some p)).1.peerIdToSocketId
      = mapSet st.peerIdToSocketId p c := by
  unfold handleJoinRoom
  have h1 : strFalsy (some r) = false := by simp [strFalsy, hr]
  have h2 : orDefault (some p) c = p := by simp [orDefault, hp]
  rw [h1]
  simp [h2]

/-- Explicit shape of the two session maps after a collision-free sequence of
joins into one room from the empty state: each map is exactly the
corresponding list of pairs, in join order. -/
theorem joinSeq_maps (r : RoomId) (l : List (ConnId × PeerId)) (hr : r ≠ "")
    (hc : (l.map Prod.fst).Nodup) (hp : (l.map Prod.snd).Nodup)
    (hne : ∀ q ∈ l, q.2 ≠ "") :
    (joinSeq r l).peers = l.map (fun cp => (cp.1, (⟨r, cp.2⟩ : PeerInfo))) ∧
    (joinSeq r l).peerIdToSocketId = l.map (fun cp => (cp.2, cp.1)) := by
  induction l using List.reverseRecOn with
  | nil => exact ⟨rfl, rfl⟩
  | append_singleton l x ih =>
      obtain ⟨c, p⟩ := x
      have hcs : (l.map Prod.fst).Nodup ∧ c ∉ l.map Prod.fst := by
        rw [List.map_append, List.nodup_append] at hc
        exact ⟨hc.1, fun hm => hc.2.2 hm (by simp)⟩
      have hps : (l.map Prod.snd).Nodup ∧ p ∉ l.map Prod.snd := by
        rw [List.map_append, List.nodup_append] at hp
        exact ⟨hp.1, fun hm => hp.2.2 hm (by simp)⟩
      have hne' : ∀ q ∈ l, q.2 ≠ "" := fun q hq => hne q (by simp [hq])
      have hpne : p ≠ "" := hne (c, p) (by simp)
      obtain ⟨ihp, ihi⟩ := ih hcs.1 hps.1 hne'
      have hstep : joinSeq r (l ++ [(c, p)])
          = (handleJoinRoom (joinSeq r l) c (some r) (some p)).1 := by
        unfold joinSeq
        rw [List.foldl_append]
        rfl
      have hmaps := handleJoinRoom_maps (joinSeq r l) c r p hr hpne
      have hfreshc : mapGet (joinSeq r l).peers c = none := by
        rw [ihp]
        refine mapGet_eq_none_of_not_mem_keys _ _ ?_
        simpa [List.map_map, Function.comp] using hcs.2
      have hfreshp : mapGet (joinSeq r l).peerIdToSocketId p = none := by
        rw [ihi]
        refine mapGet_eq_none_of_not_mem_keys _ _ ?_
        simpa [List.map_map, Function.comp] using hps.2
      constructor
      · rw [hstep, hmaps.1, mapSet_fresh _ _ _ hfreshc, ihp]
        simp
      · rw [hstep, hmaps.2, mapSet_fresh _ _ _ hfreshp, ihi]
        simp

/-- Looking up a connection in the forward map built from a pair list yields
an entry of that list (with the fixed room). -/
theorem forwardMap_mem (r : RoomId) (l : List (ConnId × PeerId)) (c : ConnId)
    (pi : PeerInfo)
    (h : mapGet (l.map (fun cp => (cp.1, (⟨r, cp.2⟩ : PeerInfo)))) c = some pi) :
    pi.roomId = r ∧ (c, pi.peerId) ∈ l := by
  induction l with
  | nil => simp [mapGet] at h
  | cons q t ih =>
      obtain ⟨a, b⟩ := q
      by_cases ha : a = c
      · subst ha
        simp only [List.map_cons, mapGet, eq_self_iff_true, if_true,
          Option.some_inj] at h
        subst h
        exact ⟨rfl, by simp⟩
      · simp only [List.map_cons, mapGet, ha, if_neg, if_false] at h
        obtain ⟨h1, h2⟩ := ih h
        exact ⟨h1, List.mem_cons_of_mem _ h2⟩

/-- A pair of the list is found by the forward map when connection ids are
duplicate-free. -/
theorem forwardMap_of_mem (r : RoomId) (l : List (ConnId × PeerId)) (c : ConnId)
    (p : PeerId) (hmem : (c, p) ∈ l) (hnd : (l.map Prod.fst).Nodup) :
    mapGet (l.map (fun cp => (cp.1, (⟨r, cp.2⟩ : PeerInfo)))) c = some ⟨r, p⟩ := by
  induction l with
  | nil => simp at hmem
  | cons q t ih =>
      obtain ⟨a, b⟩ := q
      simp only [List.map_cons, List.nodup_cons] at hnd
      rcases List.mem_cons.mp hmem with heq | htail
      · rw [Prod.mk.injEq] at heq
        obtain ⟨h1, h2⟩ := heq
        subst h1
        subst h2
        simp [mapGet]
      · have hac : a ≠ c := by
          intro hh
          subst hh
          exact hnd.1 (by simpa using List.mem_map_of_mem Prod.fst htail)
        simp only [List.map_cons, mapGet, hac, if_neg, if_false]
        exact ih htail hnd.2

/-- Looking up a peer id in the inverse map built from a pair list yields an
entry of that list. -/
theorem inverseMap_mem (l : List (ConnId × PeerId)) (p : PeerId) (c : ConnId)
    (h : mapGet (l.map (fun cp => (cp.2, cp.1))) p = some c) : (c, p) ∈ l := by
  induction l with
  | nil => simp [mapGet] at h
  | cons q t ih =>
      obtain ⟨a, b⟩ := q
      by_cases hb : b = p
      · subst hb
        simp only [List.map_cons, mapGet, eq_self_iff_true, if_true,
          Option.some_inj] at h
        subst h
        simp
      · simp only [List.map_cons, mapGet, hb, if_neg, if_false] at h
        exact List.mem_cons_of_mem _ (ih h)

/-- A pair of the list is found by the inverse map when peer ids are
duplicate-free. -/
theorem inverseMap_of_mem (l : List (ConnId × PeerId)) (c : ConnId) (p : PeerId)
    (hmem : (c, p) ∈ l) (hnd : (l.map Prod.snd).Nodup) :
    mapGet (l.map (fun cp => (cp.2, cp.1))) p = some c := by
  induction l with
  | nil => simp at hmem
  | cons q t ih =>
      obtain ⟨a, b⟩ := q
      simp only [List.map_cons, List.nodup_cons] at hnd
      rcases List.mem_cons.mp hmem with heq | htail
      · rw [Prod.mk.injEq] at heq
        obtain ⟨h1, h2⟩ := heq
        subst h1
        subst h2
        simp [mapGet]
      · have hbp : b ≠ p := by
          intro hh
          subst hh
          exact hnd.1 (by simpa using List.mem_map_of_mem Prod.snd htail)
        simp only [List.map_cons, mapGet, hbp, if_neg, if_false]
        exact ih htail hnd.2

/-- C3 counterexample: two different connections join room `"r"` with the same
peer id `"p1"`; the join overwrites only the inverse map, so afterwards
connection `"c1"` is still a joined peer of `"r"` whose session carries peer
id `"p1"`, yet the inverse map resolves `"p1"` to `"c2"` — the inverse map is
not the exact inverse of the forward map (2 forward entries, 1 inverse
entry). -/
theorem webrtc_bijection_counterexample :
    mapGet (joinSeq "r" [("c1", "p1"), ("c2", "p1")]).peers "c1"
        = some ⟨"r", "p1"⟩ ∧
    mapGet (joinSeq "r" [("c1", "p1"), ("c2", "p1")]).peerIdToSocketId "p1"
        = some "c2" ∧
    ("c2" : String) ≠ "c1" ∧
    (joinSeq "r" [("c1", "p1"), ("c2", "p1")]).peers.length = 2 ∧
    (joinSeq "r" [("c1", "p1"), ("c2", "p1")]).peerIdToSocketId.length = 1 := by
  decide

/-- C3 amended: the bijection invariant holds for collision-free histories:
after N joins to one room from the empty state by pairwise-distinct
connections with pairwise-distinct non-empty peer ids, connection ids are
unique in the session map (at most one live session per connection),
peerId→connectionId has exactly N entries, and it is the exact inverse of
connectionId→peerId on that room.  A peer-id collision, however, overwrites
only the inverse map and breaks the exact-inverse property (see the
counterexample), so the invariant is not maintained after *every* join. -/
theorem webrtc_bijection_amended (r : RoomId) (l : List (ConnId × PeerId))
    (hr : r ≠ "") (hc : (l.map Prod.fst).Nodup) (hp : (l.map Prod.snd).Nodup)
    (hne : ∀ q ∈ l, q.2 ≠ "") :
    (joinSeq r l).peerIdToSocketId.length = l.length ∧
    ((joinSeq r l).peers.map Prod.fst).Nodup ∧
    (∀ c p, mapGet (joinSeq r l).peers c = some ⟨r, p⟩ ↔
        mapGet (joinSeq r l).peerIdToSocketId p = some c) := by
  obtain ⟨hpeers, hinv⟩ := joinSeq_maps r l hr hc hp hne
  refine ⟨?_, ?_, fun c p => ⟨?_, ?_⟩⟩
  · rw [hinv, List.length_map]
  · rw [hpeers]
    simpa [List.map_map, Function.comp] using hc
  · intro h
    rw [hpeers] at h
    rw [hinv]
    exact inverseMap_of_mem l c p (forwardMap_mem r l c ⟨r, p⟩ h).2 hp
  · intro h
    rw [hinv] at h
    rw [hpeers]
    exact forwardMap_of_mem r l c p (inverseMap_mem l p c h) hc

/-- Witness for `webrtc_bijection_amended` on two distinct joins. -/
theorem webrtc_bijection_amended_witness :
    (("r" : String) ≠ "" ∧
      ([("c1", "p1"), ("c2", "p2")].map
        (Prod.fst (α := ConnId) (β := PeerId))).Nodup ∧
      ([("c1", "p1"), ("c2", "p2")].map
        (Prod.snd (α := ConnId) (β := PeerId))).Nodup ∧
      (∀ q ∈ [("c1", "p1"), ("c2", "p2")], Prod.snd (α := ConnId) q ≠ "")) ∧
    (joinSeq "r" [("c1", "p1"), ("c2", "p2")]).peerIdToSocketId.length = 2 := by
  refine ⟨⟨by decide, by decide, by decide, by decide⟩, ?_⟩
  exact (webrtc_bijection_amended "r" [("c1", "p1"), ("c2", "p2")]
    (by decide) (by decide) (by decide) (by decide)).1
